import Mathlib

/-!
# Housing-office registry (`laba2.cpp`)

A shallow embedding of the domain core of `laba2.cpp`: the `Service`
enumeration, the `Resident` entity with its two parallel vectors, and the
`HousingOffice` registry with its tariff map and revenue counter.

Modelling conventions.

* `double`: the embedding is generic in the type `D` of `double` values.  The
  program uses `0.0`, `+` and `*` (the instances `Zero D`, `Add D`, `Mul D`,
  with no law assumed of them) and, in the name search, the literal `-0.1` and
  `>` (the class `DoubleOrder`).  Two instances are given: `Binary64`, the
  IEEE 754 double-precision numbers with round-to-nearest-even, which is the
  arithmetic the program runs on, and `ℚ`, exact arithmetic.
* `int` is a 32-bit two's-complement integer: a value is an `Int` and the
  only arithmetic on ids, `getId() + 1`, is followed by `wrapInt`.
* `std::string` is a `String`; `std::string::find` is the left-to-right
  search `strFind` over the character lists, `none` standing for `npos`.
* `std::map<Service, double>` is a function `Service → Option D`; `find`
  is application (`none` is `end()`), `operator[]` assignment is a point update.
* `std::vector` is a `List`; an out-of-range `operator[]` read makes the
  enclosing function return `none`.
* What a method prints is returned as a `Message` next to the new state.
-/

namespace Laba2

/-! ## IEEE 754 double precision -/

/-- The loop behind `bitLength`: `fuel` bounds the number of halvings. -/
def bitLengthAux : Nat → Nat → Nat
  | 0, _ => 0
  | fuel + 1, n => if n = 0 then 0 else bitLengthAux fuel (n / 2) + 1

/-- The number of binary digits of `n` (`0` for `n = 0`). -/
def bitLength (n : Nat) : Nat := bitLengthAux n n

/-- An IEEE 754 binary64 value.  `finite sign mant exp` is
`(-1)^sign * mant * 2^exp`; the operations return it in canonical form:
`-1074 ≤ exp ≤ 971`, `mant < 2^53`, and `2^52 ≤ mant` unless `exp = -1074`
(so `finite true 0 (-1074)` is `-0.0`).  The one `nan` stands for every NaN. -/
inductive Binary64 where
  | finite (sign : Bool) (mant : Nat) (exp : Int)
  | inf (sign : Bool)
  | nan
  deriving DecidableEq, Repr

/-- The integer nearest to `m / d`, a tie going to the even one. -/
def roundHalfEven (m d : Nat) : Nat :=
  if 2 * (m % d) < d then m / d
  else if d < 2 * (m % d) then m / d + 1
  else if (m / d) % 2 = 0 then m / d
  else m / d + 1

/-- The binary64 value nearest to `(-1)^sign * m * 2^e` (ties to even, overflow
to infinity, gradual underflow). -/
def Binary64.round (sign : Bool) (m : Nat) (e : Int) : Binary64 :=
  if m = 0 then .finite sign 0 (-1074)
  else
    let ulp : Int := if -1074 ≤ e + bitLength m - 53 then e + bitLength m - 53 else -1074
    let q : Nat :=
      if ulp ≤ e then m * 2 ^ (e - ulp).toNat else roundHalfEven m (2 ^ (ulp - e).toNat)
    if q = 9007199254740992 then
      if 971 < ulp + 1 then .inf sign else .finite sign 4503599627370496 (ulp + 1)
    else if 971 < ulp then .inf sign
    else .finite sign q ulp

/-- The integer `(-1)^sign * n`. -/
def signedInt (sign : Bool) (n : Nat) : Int := if sign then -(n : Int) else (n : Int)

/-- The operation `+` of `double`. -/
def Binary64.add : Binary64 → Binary64 → Binary64
  | .nan, _ => .nan
  | _, .nan => .nan
  | .inf s, .inf t => if s = t then .inf s else .nan
  | .inf s, .finite _ _ _ => .inf s
  | .finite _ _ _, .inf t => .inf t
  | .finite s m e, .finite t n f =>
    let g := if e ≤ f then e else f
    let c := signedInt s (m * 2 ^ (e - g).toNat) + signedInt t (n * 2 ^ (f - g).toNat)
    if c = 0 then .finite (s && t) 0 (-1074)
    else Binary64.round (decide (c < 0)) c.natAbs g

/-- The operation `*` of `double`. -/
def Binary64.mul : Binary64 → Binary64 → Binary64
  | .nan, _ => .nan
  | _, .nan => .nan
  | .inf s, .inf t => .inf (xor s t)
  | .inf s, .finite t n _ => if n = 0 then .nan else .inf (xor s t)
  | .finite s m _, .inf t => if m = 0 then .nan else .inf (xor s t)
  | .finite s m e, .finite t n f => Binary64.round (xor s t) (m * n) (e + f)

/-- The comparison `>` of `double`. -/
def Binary64.gt : Binary64 → Binary64 → Bool
  | .nan, _ => false
  | _, .nan => false
  | .inf s, .inf t => !s && t
  | .inf s, .finite _ _ _ => !s
  | .finite _ _ _, .inf t => t
  | .finite s m e, .finite t n f =>
    let g := if e ≤ f then e else f
    decide (signedInt t (n * 2 ^ (f - g).toNat) < signedInt s (m * 2 ^ (e - g).toNat))

/-- The `double` equal to the natural number `n` (rounded when `n` needs more
than 53 bits). -/
def Binary64.ofNat (n : Nat) : Binary64 := Binary64.round false n 0

/-- The rational number a finite `double` stands for (`0` for infinities and NaN). -/
def Binary64.toRat : Binary64 → ℚ
  | .finite sign mant exp => signedInt sign mant * 2 ^ exp
  | .inf _ => 0
  | .nan => 0

/-- The literal `-0.1` and the comparison `>` of the number type. -/
class DoubleOrder (D : Type) where
  negTenth : D
  gt : D → D → Bool

instance : Zero Binary64 := ⟨.finite false 0 (-1074)⟩

instance : Add Binary64 := ⟨Binary64.add⟩

instance : Mul Binary64 := ⟨Binary64.mul⟩

/-- The `double` nearest to `-0.1` is `-7205759403792794 * 2^-56`. -/
instance : DoubleOrder Binary64 :=
  { negTenth := .finite true 7205759403792794 (-56)
    gt := Binary64.gt }

/-- Exact arithmetic: `-0.1` is `-1/10`. -/
instance : DoubleOrder ℚ :=
  { negTenth := -1 / 10
    gt := fun a b => decide (a > b) }

/-! ## The program -/

/-- The enumeration `enum class Service`. -/
inductive Service where
  | ELECTRICITY
  | WATER
  | GAS
  | HEATING
  | MAINTENANCE
  deriving DecidableEq, Repr

/-- The type `std::map<Service, double>`. -/
abbrev Tariffs (D : Type) := Service → Option D

/-- The class `Resident`: identity plus the two parallel vectors. -/
structure Resident (D : Type) where
  id : Int
  name : String
  address : String
  services : List Service
  consumption : List D
  deriving DecidableEq, Repr

/-- The class `HousingOffice` (the data members of the singleton). -/
structure HousingOffice (D : Type) where
  residents : List (Resident D)
  tariffs : Tariffs D
  totalRevenue : D

/-- What a registry method writes to the console. -/
inductive Message (D : Type) where
  | residentAdded (newId : Int)
  | consumptionAdded
  | residentNotFound (residentId : Int)
  | tariffSet (service : Service) (rate : D)
  | totalForSurname (surname : String) (total : D)
  | surnameNotFound (surname : String)
  deriving DecidableEq, Repr

/-- Result of 32-bit signed arithmetic: the representative of `x` modulo
`2^32` in `[-2^31, 2^31)`.  Signed overflow is undefined in C++; the model
takes the two's-complement result, and in any case no `int` holds `2^31`. -/
def wrapInt (x : Int) : Int := (x + 2147483648) % 4294967296 - 2147483648

section Program

variable {D : Type} [Zero D] [Add D] [Mul D]

/-- The constructor `Resident(id, name, address)`: both vectors start empty. -/
def Resident.new (id : Int) (name address : String) : Resident D :=
  { id := id, name := name, address := address, services := [], consumption := [] }

/-- The loop of `Resident::calculateTotalCost` from index `i` on: `rest` is
`services` from position `i`, `total` the accumulator.  The read
`consumption[i]` happens only when the tariff lookup succeeds. -/
def calculateTotalCostLoop (tariffs : Tariffs D) (consumption : List D) :
    List Service → Nat → D → Option D
  | [], _, total => some total
  | s :: rest, i, total =>
    match tariffs s with
    | some rate =>
      match consumption[i]? with
      | some c => calculateTotalCostLoop tariffs consumption rest (i + 1) (total + rate * c)
      | none => none
    | none => calculateTotalCostLoop tariffs consumption rest (i + 1) total

/-- The method `Resident::calculateTotalCost`. -/
def Resident.calculateTotalCost (r : Resident D) (tariffs : Tariffs D) : Option D :=
  calculateTotalCostLoop tariffs r.consumption r.services 0 0

/-- The constructor `HousingOffice::HousingOffice`: no residents, revenue `0.0`,
the five tariff entries written at `0.0` into an empty map. -/
def HousingOffice.new : HousingOffice D :=
  { residents := []
    tariffs := fun s =>
      match s with
      | .ELECTRICITY => some 0
      | .WATER => some 0
      | .GAS => some 0
      | .HEATING => some 0
      | .MAINTENANCE => some 0
    totalRevenue := 0 }

/-- The local `newId` of `HousingOffice::addResident`. -/
def HousingOffice.newId (o : HousingOffice D) : Int :=
  match o.residents.getLast? with
  | none => 1
  | some r => wrapInt (r.id + 1)

/-- The method `HousingOffice::addResident`. -/
def HousingOffice.addResident (o : HousingOffice D) (name address : String) :
    HousingOffice D × Message D :=
  ({ o with residents := o.residents ++ [Resident.new o.newId name address] },
   .residentAdded o.newId)

/-- The range-for of `HousingOffice::addServiceConsumption` over the residents:
the first resident whose id equals `residentId` gets both `push_back`s;
`none` when the loop ends without a match. -/
def addServiceConsumptionLoop (residentId : Int) (service : Service) (amount : D) :
    List (Resident D) → Option (List (Resident D))
  | [] => none
  | r :: rest =>
    if r.id = residentId then
      some ({ r with services := r.services ++ [service],
                     consumption := r.consumption ++ [amount] } :: rest)
    else
      (addServiceConsumptionLoop residentId service amount rest).map (fun rs => r :: rs)

/-- The method `HousingOffice::addServiceConsumption`. -/
def HousingOffice.addServiceConsumption (o : HousingOffice D) (residentId : Int)
    (service : Service) (amount : D) : HousingOffice D × Message D :=
  match addServiceConsumptionLoop residentId service amount o.residents with
  | some residents =>
    ({ residents := residents
       tariffs := o.tariffs
       totalRevenue :=
         match o.tariffs service with
         | some rate => o.totalRevenue + rate * amount
         | none => o.totalRevenue },
     .consumptionAdded)
  | none => (o, .residentNotFound residentId)

/-- The method `HousingOffice::setTariff`. -/
def HousingOffice.setTariff (o : HousingOffice D) (service : Service) (rate : D) :
    HousingOffice D × Message D :=
  ({ o with tariffs := fun s => if s = service then some rate else o.tariffs s },
   .tariffSet service rate)

/-- The search `std::string::find` on character lists: the lowest position at
which `needle` occurs in `hay`, `none` for `npos`. -/
def findFrom (needle : List Char) : List Char → Option Nat
  | [] => if needle.isPrefixOf [] then some 0 else none
  | c :: rest =>
    if needle.isPrefixOf (c :: rest) then some 0
    else (findFrom needle rest).map (fun p => p + 1)

/-- The call `s.find(sub)` of `std::string`. -/
def strFind (s sub : String) : Option Nat := findFrom sub.data s.data

/-- The range-for of `HousingOffice::calculateTotalForResident`. -/
def calculateTotalForResidentLoop [DoubleOrder D] (tariffs : Tariffs D) (surname : String) :
    List (Resident D) → Option D
  | [] => some DoubleOrder.negTenth
  | r :: rest =>
    if strFind r.name surname ≠ none then r.calculateTotalCost tariffs
    else calculateTotalForResidentLoop tariffs surname rest

/-- The method `HousingOffice::calculateTotalForResident`. -/
def HousingOffice.calculateTotalForResident [DoubleOrder D] (o : HousingOffice D)
    (surname : String) : Option D :=
  calculateTotalForResidentLoop o.tariffs surname o.residents

/-- The body of `case 4` of `main`: query the total and choose the message
with the test `total > -0.1`. -/
def mainCase4 [DoubleOrder D] (o : HousingOffice D) (surname : String) : Option (Message D) :=
  (o.calculateTotalForResident surname).map fun total =>
    if DoubleOrder.gt total DoubleOrder.negTenth then .totalForSurname surname total
    else .surnameNotFound surname

/-- One mutating call on the registry. -/
inductive Op (D : Type) where
  | addResident (name address : String)
  | setTariff (service : Service) (rate : D)
  | addServiceConsumption (residentId : Int) (service : Service) (amount : D)
  deriving DecidableEq, Repr

/-- The registry after one call. -/
def step (o : HousingOffice D) : Op D → HousingOffice D
  | .addResident name address => (o.addResident name address).1
  | .setTariff service rate => (o.setTariff service rate).1
  | .addServiceConsumption residentId service amount =>
    (o.addServiceConsumption residentId service amount).1

/-- The registry after a sequence of calls on `o`. -/
def runFrom (o : HousingOffice D) (ops : List (Op D)) : HousingOffice D := ops.foldl step o

/-- The registry after a sequence of calls on the freshly constructed registry. -/
def run (ops : List (Op D)) : HousingOffice D := runFrom HousingOffice.new ops

/-! ## Specification vocabulary -/

/-- The consumption entries of a resident as one sequence of pairs. -/
def Resident.entries (r : Resident D) : List (Service × D) := r.services.zip r.consumption

/-- One step of the running total: an entry whose service has a rate adds
`rate * amount` to `total`, an entry whose service is absent adds nothing. -/
def addEntryCost (tariffs : Tariffs D) (total : D) (e : Service × D) : D :=
  match tariffs e.1 with
  | some rate => total + rate * e.2
  | none => total

/-- The sum of `tariffs[service] * amount` over the entries, accumulated from
`0.0` in entry order with the `+` and `*` of the number type. -/
def accumulatedCost (tariffs : Tariffs D) (entries : List (Service × D)) : D :=
  entries.foldl (addEntryCost tariffs) 0

/-- The two parallel vectors of a resident have the same length. -/
def Resident.Aligned (r : Resident D) : Prop := r.services.length = r.consumption.length

/-- The resident after the two `push_back`s of `addServiceConsumption`. -/
def Resident.withEntry (r : Resident D) (service : Service) (amount : D) : Resident D :=
  { r with services := r.services ++ [service], consumption := r.consumption ++ [amount] }

/-- The immutable part of a resident: id, name and address. -/
def Resident.identity (r : Resident D) : Int × String × String := (r.id, r.name, r.address)

/-- The ids of the stored residents, in list order. -/
def HousingOffice.ids (o : HousingOffice D) : List Int := o.residents.map Resident.id

/-- The facts that hold in every registry state reachable from the constructor. -/
structure Inv (o : HousingOffice D) : Prop where
  aligned : ∀ r ∈ o.residents, r.Aligned
  tariffs : ∀ s, ∃ rate, o.tariffs s = some rate
  ids : o.ids = (List.range o.residents.length).map (fun (k : Nat) => wrapInt ((k : Int) + 1))

/-- The spec's match condition: `sub` occurs in `name` as a literal contiguous
run of characters. -/
def nameContains (name sub : String) : Prop := sub.data <:+: name.data

/-- The first resident in list order whose name contains `sub` has the lowest
id among the residents whose name contains `sub`. -/
def FirstMatchHasLowestId (o : HousingOffice D) (sub : String) : Prop :=
  ∀ pre r post, o.residents = pre ++ r :: post → nameContains r.name sub →
    (∀ x ∈ pre, ¬ nameContains x.name sub) →
    ∀ x ∈ o.residents, nameContains x.name sub → r.id ≤ x.id

end Program

/-! ## Specification vocabulary of exact arithmetic -/

/-- The spec's cost of one consumption entry: `tariffs[service] * amount`, and
`0` when the service is absent from the mapping. -/
def specEntryCost (tariffs : Tariffs ℚ) (e : Service × ℚ) : ℚ :=
  match tariffs e.1 with
  | some rate => rate * e.2
  | none => 0

/-- The spec's `totalCost(tariffs)`: the sum of the entry costs. -/
def specTotalCost (tariffs : Tariffs ℚ) (entries : List (Service × ℚ)) : ℚ :=
  (entries.map (specEntryCost tariffs)).sum

/-- The spec's `totalCost(tariffs)` of `double` data read as exact numbers. -/
def exactTotalCost (tariffs : Tariffs Binary64) (entries : List (Service × Binary64)) : ℚ :=
  specTotalCost (fun s => (tariffs s).map Binary64.toRat)
    (entries.map (fun e => (e.1, e.2.toRat)))

/-- A call made through the validating front end: rates and amounts are `≥ 0`. -/
def Op.NonNeg : Op ℚ → Prop
  | .addResident _ _ => True
  | .setTariff _ rate => 0 ≤ rate
  | .addServiceConsumption _ _ amount => 0 ≤ amount

/-- Every stored rate and every recorded amount is non-negative. -/
structure NonNegState (o : HousingOffice ℚ) : Prop where
  rates : ∀ s rate, o.tariffs s = some rate → 0 ≤ rate
  amounts : ∀ r ∈ o.residents, ∀ a ∈ r.consumption, 0 ≤ a

/-- Cumulative revenue equals the sum over all residents of
`calculateTotalCost` under the current tariff table (each call returning a value). -/
def RevenueMatchesCosts (o : HousingOffice ℚ) : Prop :=
  ∃ costs : List ℚ,
    o.residents.map (fun r => r.calculateTotalCost o.tariffs) = costs.map some ∧
    o.totalRevenue = costs.sum

/-- Cumulative revenue equals the sum of the spec's total costs. -/
def Balanced (o : HousingOffice ℚ) : Prop :=
  o.totalRevenue = (o.residents.map (fun r => specTotalCost o.tariffs r.entries)).sum

/-- No `setTariff` call occurs after the first successful `addServiceConsumption`
in the sequence `ops` executed from `o`; `recorded` tells whether a successful
`addServiceConsumption` has already happened. -/
def noTariffChangeAfterConsumption (o : HousingOffice ℚ) (recorded : Bool) :
    List (Op ℚ) → Bool
  | [] => true
  | .addResident name address :: rest =>
    noTariffChangeAfterConsumption (o.addResident name address).1 recorded rest
  | .setTariff service rate :: rest =>
    !recorded && noTariffChangeAfterConsumption (o.setTariff service rate).1 recorded rest
  | .addServiceConsumption residentId service amount :: rest =>
    noTariffChangeAfterConsumption (o.addServiceConsumption residentId service amount).1
      (recorded ||
        decide ((o.addServiceConsumption residentId service amount).2 = .consumptionAdded))
      rest

/-! ## Binary digits and `double` arithmetic -/

set_option exponentiation.threshold 4096

theorem bitLengthAux_zero (fuel : Nat) : bitLengthAux fuel 0 = 0 := by
  cases fuel <;> simp [bitLengthAux]

theorem bitLengthAux_spec (fuel : Nat) :
    ∀ n, n ≤ fuel →
      n < 2 ^ bitLengthAux fuel n ∧ (0 < n → 2 ^ (bitLengthAux fuel n - 1) ≤ n) := by
  induction fuel with
  | zero =>
    intro n hn
    have : n = 0 := by omega
    subst this
    simp [bitLengthAux]
  | succ fuel ih =>
    intro n hn
    by_cases h0 : n = 0
    · subst h0
      simp [bitLengthAux]
    · obtain ⟨hlt, hge⟩ := ih (n / 2) (by omega)
      simp only [bitLengthAux, h0, if_false, Nat.add_sub_cancel]
      refine ⟨?_, fun _ => ?_⟩
      · rw [pow_succ]
        omega
      · by_cases h1 : n / 2 = 0
        · rw [h1, bitLengthAux_zero]
          simp
          omega
        · have hk := hge (by omega)
          have hpos : 0 < bitLengthAux fuel (n / 2) := by
            by_contra hc
            have : bitLengthAux fuel (n / 2) = 0 := by omega
            rw [this] at hlt
            simp at hlt
            exact h1 hlt
          have hpow : 2 ^ bitLengthAux fuel (n / 2)
              = 2 ^ (bitLengthAux fuel (n / 2) - 1) * 2 := by
            rw [← pow_succ]
            congr 1
            omega
          rw [hpow]
          omega

/-- The fuel of `bitLength` is never exhausted: `bitLength n` is the number of
binary digits of `n`. -/
theorem bitLength_spec (n : Nat) :
    n < 2 ^ bitLength n ∧ (0 < n → 2 ^ (bitLength n - 1) ≤ n) :=
  bitLengthAux_spec n n (le_refl n)

set_option maxRecDepth 10000 in
/-- Reference results of IEEE 754 double arithmetic reproduced by `Binary64`:
`2^53 + 1` rounds to `2^53` and `2^53 + 3` to `2^53 + 4` (ties to even),
`0.1 * 3` and `0.1 + 0.2` are both `0.30000000000000004`, `1e16 + 1` is `1e16`,
the largest finite value doubled is `+inf`, `inf - inf` and `inf * 0` are NaN,
and `-0.1 > -0.1` is false while `0 > -0.1` is true. -/
theorem binary64_reference_results :
    Binary64.ofNat 9007199254740993 = .finite false 4503599627370496 1 ∧
    Binary64.ofNat 9007199254740995 = .finite false 4503599627370498 1 ∧
    Binary64.finite false 7205759403792794 (-56) * Binary64.ofNat 3
      = .finite false 5404319552844596 (-54) ∧
    Binary64.finite false 7205759403792794 (-56) + Binary64.finite false 7205759403792794 (-55)
      = .finite false 5404319552844596 (-54) ∧
    Binary64.ofNat 10000000000000000 + Binary64.ofNat 1
      = .finite false 5000000000000000 1 ∧
    Binary64.finite false 9007199254740991 971 * Binary64.ofNat 2 = .inf false ∧
    Binary64.inf false + Binary64.inf true = .nan ∧
    Binary64.inf false * (0 : Binary64) = .nan ∧
    DoubleOrder.gt (DoubleOrder.negTenth : Binary64) DoubleOrder.negTenth = false ∧
    DoubleOrder.gt (0 : Binary64) DoubleOrder.negTenth = true := by
  decide

section Generic

variable {D : Type}

/-! ## The cost loop -/

theorem calculateTotalCostLoop_eq [Add D] [Mul D] (tariffs : Tariffs D) (done cs : List D) :
    ∀ (rest : List Service) (total : D), rest.length = cs.length →
      calculateTotalCostLoop tariffs (done ++ cs) rest done.length total
        = some ((rest.zip cs).foldl (addEntryCost tariffs) total) := by
  induction cs generalizing done with
  | nil =>
    intro rest total h
    have : rest = [] := List.length_eq_zero.mp h
    subst this
    simp [calculateTotalCostLoop]
  | cons c cs ih =>
    intro rest total h
    cases rest with
    | nil => simp at h
    | cons s rest =>
      have hlen : rest.length = cs.length := by simpa using h
      have hnext := ih (done ++ [c]) rest
      simp only [List.append_assoc, List.singleton_append, List.length_append,
        List.length_singleton] at hnext
      have hget : (done ++ c :: cs)[done.length]? = some c := by
        rw [List.getElem?_append_right (le_refl _)]
        simp
      cases ht : tariffs s with
      | none =>
        simp only [calculateTotalCostLoop, ht]
        rw [hnext total hlen]
        simp [addEntryCost, ht]
      | some rate =>
        simp only [calculateTotalCostLoop, ht, hget]
        rw [hnext (total + rate * c) hlen]
        simp [addEntryCost, ht]

theorem calculateTotalCost_eq_accumulated [Zero D] [Add D] [Mul D]
    (r : Resident D) (tariffs : Tariffs D)
    (h : r.Aligned) :
    r.calculateTotalCost tariffs = some (accumulatedCost tariffs r.entries) := by
  have := calculateTotalCostLoop_eq tariffs [] r.consumption r.services 0 h
  simpa [Resident.calculateTotalCost, Resident.entries, accumulatedCost] using this

/-! ## The consumption loop -/

theorem addServiceConsumptionLoop_none (residentId : Int) (service : Service) (amount : D) :
    ∀ (rs : List (Resident D)), (∀ r ∈ rs, r.id ≠ residentId) →
      addServiceConsumptionLoop residentId service amount rs = none := by
  intro rs
  induction rs with
  | nil => intro _; rfl
  | cons r rest ih =>
    intro h
    have hr : r.id ≠ residentId := h r (List.mem_cons_self _ _)
    have hrest := ih (fun x hx => h x (List.mem_cons_of_mem _ hx))
    simp [addServiceConsumptionLoop, hr, hrest]

theorem addServiceConsumptionLoop_some (residentId : Int) (service : Service) (amount : D) :
    ∀ (rs : List (Resident D)), (∃ r ∈ rs, r.id = residentId) →
      ∃ pre r post, rs = pre ++ r :: post ∧ r.id = residentId ∧
        (∀ x ∈ pre, x.id ≠ residentId) ∧
        addServiceConsumptionLoop residentId service amount rs
          = some (pre ++ r.withEntry service amount :: post) := by
  intro rs
  induction rs with
  | nil => intro h; simp at h
  | cons r rest ih =>
    intro h
    by_cases hr : r.id = residentId
    · exact ⟨[], r, rest, rfl, hr, by simp, by simp [addServiceConsumptionLoop, hr,
        Resident.withEntry]⟩
    · have hex : ∃ x ∈ rest, x.id = residentId := by
        obtain ⟨x, hx, hxid⟩ := h
        rcases List.mem_cons.mp hx with rfl | hx
        · exact absurd hxid hr
        · exact ⟨x, hx, hxid⟩
      obtain ⟨pre, x, post, hsplit, hxid, hpre, hloop⟩ := ih hex
      refine ⟨r :: pre, x, post, by simp [hsplit], hxid, ?_, ?_⟩
      · intro y hy
        rcases List.mem_cons.mp hy with rfl | hy
        · exact hr
        · exact hpre y hy
      · simp [addServiceConsumptionLoop, hr, hloop]

theorem withEntry_identity (r : Resident D) (service : Service) (amount : D) :
    (r.withEntry service amount).identity = r.identity := rfl

theorem withEntry_aligned (r : Resident D) (service : Service) (amount : D) (h : r.Aligned) :
    (r.withEntry service amount).Aligned := by
  simp [Resident.Aligned, Resident.withEntry] at *
  exact h

/-- Every outcome of `addServiceConsumption`: either no resident has the id and
nothing changes, or the first resident with the id gets the entry. -/
theorem addServiceConsumption_cases [Add D] [Mul D] (o : HousingOffice D) (residentId : Int)
    (service : Service) (amount : D) :
    ((∀ r ∈ o.residents, r.id ≠ residentId) ∧
      o.addServiceConsumption residentId service amount = (o, .residentNotFound residentId)) ∨
    (∃ pre r post, o.residents = pre ++ r :: post ∧ r.id = residentId ∧
      (∀ x ∈ pre, x.id ≠ residentId) ∧
      o.addServiceConsumption residentId service amount =
        ({ residents := pre ++ r.withEntry service amount :: post
           tariffs := o.tariffs
           totalRevenue :=
             match o.tariffs service with
             | some rate => o.totalRevenue + rate * amount
             | none => o.totalRevenue },
         .consumptionAdded)) := by
  by_cases h : ∃ r ∈ o.residents, r.id = residentId
  · right
    obtain ⟨pre, r, post, hsplit, hid, hpre, hloop⟩ :=
      addServiceConsumptionLoop_some residentId service amount o.residents h
    exact ⟨pre, r, post, hsplit, hid, hpre, by
      simp only [HousingOffice.addServiceConsumption, hloop]⟩
  · left
    have h' : ∀ r ∈ o.residents, r.id ≠ residentId := fun r hr hid => h ⟨r, hr, hid⟩
    exact ⟨h', by
      simp only [HousingOffice.addServiceConsumption,
        addServiceConsumptionLoop_none residentId service amount o.residents h']⟩

/-! ## The name search -/

theorem findFrom_ne_none_iff (needle : List Char) :
    ∀ (hay : List Char), findFrom needle hay ≠ none ↔ needle <:+: hay := by
  intro hay
  induction hay with
  | nil =>
    cases needle with
    | nil => simp [findFrom]
    | cons c cs => simp [findFrom, List.isPrefixOf]
  | cons c rest ih =>
    rw [List.infix_cons_iff]
    by_cases hp : needle.isPrefixOf (c :: rest) = true
    · have : needle <+: c :: rest := List.isPrefixOf_iff_prefix.mp hp
      simp [findFrom, hp, this]
    · have hnp : ¬ needle <+: c :: rest := fun h => hp (List.isPrefixOf_iff_prefix.mpr h)
      have hmap : (Option.map (fun p => p + 1) (findFrom needle rest) ≠ none)
          ↔ findFrom needle rest ≠ none := by
        cases findFrom needle rest <;> simp
      simp only [findFrom, hp, Bool.false_eq_true, if_false, hmap, ih, hnp, false_or]

theorem strFind_ne_none_iff (name sub : String) :
    strFind name sub ≠ none ↔ nameContains name sub :=
  findFrom_ne_none_iff sub.data name.data

theorem calculateTotalForResidentLoop_none [Zero D] [Add D] [Mul D] [DoubleOrder D]
    (tariffs : Tariffs D)
    (sub : String) :
    ∀ (rs : List (Resident D)), (∀ r ∈ rs, ¬ nameContains r.name sub) →
      calculateTotalForResidentLoop tariffs sub rs = some DoubleOrder.negTenth := by
  intro rs
  induction rs with
  | nil => intro _; rfl
  | cons r rest ih =>
    intro h
    have hr : ¬ strFind r.name sub ≠ none := fun hc =>
      h r (List.mem_cons_self _ _) ((strFind_ne_none_iff _ _).mp hc)
    rw [calculateTotalForResidentLoop, if_neg hr]
    exact ih (fun x hx => h x (List.mem_cons_of_mem _ hx))

theorem calculateTotalForResidentLoop_first [Zero D] [Add D] [Mul D] [DoubleOrder D]
    (tariffs : Tariffs D)
    (sub : String) :
    ∀ (rs : List (Resident D)), (∃ r ∈ rs, nameContains r.name sub) →
      ∃ pre r post, rs = pre ++ r :: post ∧ nameContains r.name sub ∧
        (∀ x ∈ pre, ¬ nameContains x.name sub) ∧
        calculateTotalForResidentLoop tariffs sub rs = r.calculateTotalCost tariffs := by
  intro rs
  induction rs with
  | nil => intro h; simp at h
  | cons r rest ih =>
    intro h
    by_cases hr : nameContains r.name sub
    · refine ⟨[], r, rest, rfl, hr, by simp, ?_⟩
      rw [calculateTotalForResidentLoop, if_pos ((strFind_ne_none_iff _ _).mpr hr)]
    · have hex : ∃ x ∈ rest, nameContains x.name sub := by
        obtain ⟨x, hx, hxc⟩ := h
        rcases List.mem_cons.mp hx with rfl | hx
        · exact absurd hxc hr
        · exact ⟨x, hx, hxc⟩
      obtain ⟨pre, x, post, hsplit, hxc, hpre, hloop⟩ := ih hex
      refine ⟨r :: pre, x, post, by simp [hsplit], hxc, ?_, ?_⟩
      · intro y hy
        rcases List.mem_cons.mp hy with rfl | hy
        · exact hr
        · exact hpre y hy
      · rw [calculateTotalForResidentLoop,
          if_neg (fun hc => hr ((strFind_ne_none_iff _ _).mp hc))]
        exact hloop

/-! ## Reachable states -/

theorem wrapInt_succ (x : Int) : wrapInt (wrapInt x + 1) = wrapInt (x + 1) := by
  unfold wrapInt
  omega

theorem wrapInt_of_small (x : Int) (h0 : -2147483648 ≤ x) (h1 : x < 2147483648) :
    wrapInt x = x := by
  unfold wrapInt
  omega

theorem runFrom_append [Add D] [Mul D] (o : HousingOffice D) (ops more : List (Op D)) :
    runFrom o (ops ++ more) = runFrom (runFrom o ops) more := by
  simp [runFrom, List.foldl_append]

theorem run_append [Zero D] [Add D] [Mul D]
    (ops more : List (Op D)) : run (ops ++ more) = runFrom (run ops) more :=
  runFrom_append _ _ _

theorem inv_new [Zero D] : Inv (HousingOffice.new : HousingOffice D) :=
  { aligned := by intro r hr; simp [HousingOffice.new] at hr
    tariffs := by intro s; cases s <;> exact ⟨0, rfl⟩
    ids := by simp [HousingOffice.ids, HousingOffice.new] }

theorem newId_of_inv (o : HousingOffice D) (h : Inv o) :
    o.newId = wrapInt ((o.residents.length : Int) + 1) := by
  unfold HousingOffice.newId
  rcases List.eq_nil_or_concat o.residents with hnil | ⟨init, last, hsplit⟩
  · simp [hnil, wrapInt]
  · have hids := h.ids
    simp only [HousingOffice.ids, hsplit, List.concat_eq_append, List.length_append,
      List.length_singleton, List.range_succ, List.map_append, List.map_cons,
      List.map_nil] at hids
    have hlast : last.id = wrapInt ((init.length : Int) + 1) := by
      have := List.append_inj' hids (by simp)
      simpa using this.2
    simp only [hsplit, List.concat_eq_append, List.getLast?_append, List.getLast?_singleton,
      Option.or_some, List.length_append, List.length_singleton, hlast]
    rw [wrapInt_succ]
    push_cast
    rfl

theorem inv_step [Add D] [Mul D]
    (o : HousingOffice D) (op : Op D) (h : Inv o) : Inv (step o op) := by
  cases op with
  | addResident name address =>
    refine ⟨?_, h.tariffs, ?_⟩
    · intro r hr
      simp only [step, HousingOffice.addResident, List.mem_append, List.mem_singleton] at hr
      rcases hr with hr | rfl
      · exact h.aligned r hr
      · rfl
    · have hids := h.ids
      simp only [HousingOffice.ids] at hids
      simp only [step, HousingOffice.addResident, HousingOffice.ids, List.map_append,
        List.map_cons, List.map_nil, List.length_append, List.length_singleton,
        List.range_succ, hids, Resident.new, newId_of_inv o h]
  | setTariff service rate =>
    refine ⟨h.aligned, ?_, h.ids⟩
    intro s
    by_cases hs : s = service
    · exact ⟨rate, by simp [step, HousingOffice.setTariff, hs]⟩
    · obtain ⟨old, hold⟩ := h.tariffs s
      exact ⟨old, by simp [step, HousingOffice.setTariff, hs, hold]⟩
  | addServiceConsumption residentId service amount =>
    rcases addServiceConsumption_cases o residentId service amount with
      ⟨_, heq⟩ | ⟨pre, r, post, hsplit, _, _, heq⟩
    · simp only [step, heq]; exact h
    · simp only [step, heq]
      refine ⟨?_, h.tariffs, ?_⟩
      · intro x hx
        simp only [List.mem_append, List.mem_cons] at hx
        have hal := h.aligned
        rw [hsplit] at hal
        rcases hx with hx | rfl | hx
        · exact hal x (by simp [hx])
        · exact withEntry_aligned r service amount (hal r (by simp))
        · exact hal x (by simp [hx])
      · have hids := h.ids
        simp only [HousingOffice.ids, hsplit, List.map_append, List.map_cons,
          List.length_append, List.length_cons] at hids
        simp only [HousingOffice.ids, List.map_append, List.map_cons,
          List.length_append, List.length_cons]
        exact hids

theorem inv_runFrom [Add D] [Mul D] (ops : List (Op D)) :
    ∀ (o : HousingOffice D), Inv o → Inv (runFrom o ops) := by
  induction ops with
  | nil => intro o h; exact h
  | cons op ops ih => intro o h; exact ih (step o op) (inv_step o op h)

theorem inv_run [Zero D] [Add D] [Mul D]
    (ops : List (Op D)) : Inv (run ops) := inv_runFrom ops _ inv_new

theorem ids_run [Zero D] [Add D] [Mul D] (ops : List (Op D)) :
    (run ops).ids
      = (List.range (run ops).residents.length).map (fun (k : Nat) => wrapInt ((k : Int) + 1)) :=
  (inv_run ops).ids

theorem ids_run_of_le [Zero D] [Add D] [Mul D]
    (ops : List (Op D)) (h : (run ops).residents.length ≤ 2147483647) :
    (run ops).ids
      = (List.range (run ops).residents.length).map (fun (k : Nat) => (k : Int) + 1) := by
  rw [ids_run]
  apply List.map_congr_left
  intro k hk
  have hk' : k < (run ops).residents.length := List.mem_range.mp hk
  apply wrapInt_of_small <;> omega

theorem length_runFrom_replicate_addResident [Add D] [Mul D] (name address : String) (n : Nat) :
    ∀ (o : HousingOffice D),
      (runFrom o (List.replicate n (Op.addResident name address))).residents.length
        = o.residents.length + n := by
  induction n with
  | zero => intro o; rfl
  | succ n ih =>
    intro o
    have hstep : (step o (Op.addResident name address)).residents.length
        = o.residents.length + 1 := by
      simp [step, HousingOffice.addResident]
    have := ih (step o (Op.addResident name address))
    rw [hstep] at this
    rw [List.replicate_succ]
    show (runFrom (step o (Op.addResident name address))
      (List.replicate n (Op.addResident name address))).residents.length = _
    rw [this]
    omega

theorem length_run_replicate_addResident [Zero D] [Add D] [Mul D]
    (name address : String) (n : Nat) :
    (run (List.replicate n (Op.addResident name address : Op D))).residents.length = n := by
  have := length_runFrom_replicate_addResident name address n
    (HousingOffice.new : HousingOffice D)
  rw [run, this]
  simp [HousingOffice.new]

theorem wrapInt_int_max_succ : ¬ (wrapInt (2147483646 + 1) < wrapInt (2147483647 + 1)) := by
  norm_num [wrapInt]

/-- Once `2^31` or more residents have been added the ids are no longer increasing. -/
theorem ids_not_increasing_of_many [Zero D] [Add D] [Mul D]
    (name address : String) (n : Nat) (hn : 2147483648 ≤ n) :
    ¬ (run (List.replicate n (Op.addResident name address : Op D))).ids.Pairwise (· < ·) := by
  intro hpw
  rw [ids_run, length_run_replicate_addResident, List.pairwise_iff_getElem] at hpw
  have h := hpw 2147483646 2147483647 (by rw [List.length_map, List.length_range]; omega)
    (by rw [List.length_map, List.length_range]; omega) (by omega)
  rw [List.getElem_map, List.getElem_map, List.getElem_range, List.getElem_range] at h
  exact wrapInt_int_max_succ (by exact_mod_cast h)

theorem identity_prefix_step [Add D] [Mul D] (o : HousingOffice D) (op : Op D) :
    o.residents.map Resident.identity <+: (step o op).residents.map Resident.identity := by
  cases op with
  | addResident name address =>
    simp only [step, HousingOffice.addResident, List.map_append]
    exact List.prefix_append _ _
  | setTariff service rate => exact List.prefix_refl _
  | addServiceConsumption residentId service amount =>
    rcases addServiceConsumption_cases o residentId service amount with
      ⟨_, heq⟩ | ⟨pre, r, post, hsplit, _, _, heq⟩
    · simp only [step, heq]; exact List.prefix_refl _
    · simp only [step, heq, hsplit, List.map_append, List.map_cons, withEntry_identity]
      exact List.prefix_refl _

theorem identity_prefix_runFrom [Add D] [Mul D] (more : List (Op D)) : ∀ (o : HousingOffice D),
    o.residents.map Resident.identity <+: (runFrom o more).residents.map Resident.identity := by
  induction more with
  | nil => intro o; exact List.prefix_refl _
  | cons op more ih =>
    intro o
    exact (identity_prefix_step o op).trans (ih (step o op))

theorem id_getElem_run [Zero D] [Add D] [Mul D]
    (ops : List (Op D)) (i : Nat) (hi : i < (run ops).residents.length) :
    ((run ops).residents[i]).id = wrapInt ((i : Int) + 1) := by
  have h := congrArg (fun l => l[i]?) (ids_run ops)
  simp only [HousingOffice.ids, List.getElem?_map, List.getElem?_range hi,
    List.getElem?_eq_getElem hi, Option.map_some'] at h
  exact Option.some.inj h

theorem name_runFrom_replicate_addResident [Add D] [Mul D] (name address : String) (n : Nat) :
    ∀ (o : HousingOffice D), (∀ r ∈ o.residents, r.name = name) →
      ∀ r ∈ (runFrom o (List.replicate n (Op.addResident name address))).residents,
        r.name = name := by
  induction n with
  | zero => intro o h; exact h
  | succ n ih =>
    intro o h
    rw [List.replicate_succ]
    apply ih (step o (Op.addResident name address))
    intro r hr
    simp only [step, HousingOffice.addResident, List.mem_append, List.mem_singleton] at hr
    rcases hr with hr | rfl
    · exact h r hr
    · rfl

theorem firstMatchHasLowestId_of_le [Zero D] [Add D] [Mul D] (ops : List (Op D)) (sub : String)
    (h : (run ops).residents.length ≤ 2147483647) : FirstMatchHasLowestId (run ops) sub := by
  intro pre r post hsplit _ hpre x hx hxc
  have hpw : (run ops).ids.Pairwise (· < ·) := by
    rw [ids_run_of_le ops h, List.pairwise_map]
    exact (List.pairwise_lt_range _).imp (fun hab => by omega)
  rw [HousingOffice.ids, List.pairwise_map, hsplit, List.pairwise_append] at hpw
  rw [hsplit, List.mem_append, List.mem_cons] at hx
  rcases hx with hx | rfl | hx
  · exact absurd hxc (hpre x hx)
  · exact le_refl _
  · exact le_of_lt ((List.pairwise_cons.mp hpw.2.1).1 x hx)

/-- Once `2^31` or more residents of one name are stored, the first of them in
list order (id `1`) is not the one with the lowest id (`-2^31`). -/
theorem not_firstMatchHasLowestId_of_many [Zero D] [Add D] [Mul D] (name address : String) (n : Nat)
    (hn : 2147483648 ≤ n) :
    ¬ FirstMatchHasLowestId
      (run (List.replicate n (Op.addResident name address : Op D))) name := by
  intro hfirst
  have hlen : (run (List.replicate n (Op.addResident name address : Op D))).residents.length
      = n := length_run_replicate_addResident name address n
  have hname : ∀ r ∈ (run (List.replicate n (Op.addResident name address : Op D))).residents,
      r.name = name :=
    name_runFrom_replicate_addResident name address n HousingOffice.new
      (by intro r hr; simp [HousingOffice.new] at hr)
  have h0 : 0
      < (run (List.replicate n (Op.addResident name address : Op D))).residents.length := by
    omega
  have hl : 2147483647
      < (run (List.replicate n (Op.addResident name address : Op D))).residents.length := by
    omega
  have hid0 := id_getElem_run _ 0 h0
  have hidl := id_getElem_run _ 2147483647 hl
  have hself : ∀ r ∈ (run (List.replicate n (Op.addResident name address : Op D))).residents,
      nameContains r.name name := by
    intro r hr
    rw [hname r hr]
    exact List.infix_refl _
  obtain ⟨first, rest, hsplit⟩ := List.exists_cons_of_length_pos h0
  have hfirst0 : (run (List.replicate n (Op.addResident name address : Op D))).residents[0]
      = first := by
    simp [hsplit]
  have hle := hfirst [] first rest (by simp [hsplit])
    (hself first (by simp [hsplit])) (by simp)
    _ (List.getElem_mem hl) (hself _ (List.getElem_mem hl))
  rw [hidl, ← hfirst0, hid0] at hle
  norm_num [wrapInt] at hle

end Generic

/-! ## Exact arithmetic -/

theorem negTenth_rat : (DoubleOrder.negTenth : ℚ) = -1 / 10 := rfl

theorem gt_rat (a b : ℚ) : DoubleOrder.gt a b = decide (a > b) := rfl

theorem foldl_addEntryCost_rat (tariffs : Tariffs ℚ) (entries : List (Service × ℚ)) :
    ∀ total : ℚ,
      entries.foldl (addEntryCost tariffs) total = total + specTotalCost tariffs entries := by
  induction entries with
  | nil => intro total; simp [specTotalCost]
  | cons e rest ih =>
    intro total
    rw [List.foldl_cons, ih]
    cases ht : tariffs e.1 with
    | none => simp [addEntryCost, specTotalCost, specEntryCost, ht]
    | some rate => simp [addEntryCost, specTotalCost, specEntryCost, ht, add_assoc]

theorem accumulatedCost_rat (tariffs : Tariffs ℚ) (entries : List (Service × ℚ)) :
    accumulatedCost tariffs entries = specTotalCost tariffs entries := by
  rw [accumulatedCost, foldl_addEntryCost_rat, zero_add]

theorem calculateTotalCost_eq_spec (r : Resident ℚ) (tariffs : Tariffs ℚ) (h : r.Aligned) :
    r.calculateTotalCost tariffs = some (specTotalCost tariffs r.entries) := by
  rw [calculateTotalCost_eq_accumulated r tariffs h, accumulatedCost_rat]

/-! ## Non-negative inputs -/

theorem specTotalCost_nonneg (tariffs : Tariffs ℚ) (entries : List (Service × ℚ))
    (hr : ∀ s rate, tariffs s = some rate → 0 ≤ rate) (ha : ∀ e ∈ entries, 0 ≤ e.2) :
    0 ≤ specTotalCost tariffs entries := by
  unfold specTotalCost
  apply List.sum_nonneg
  intro x hx
  obtain ⟨e, he, rfl⟩ := List.mem_map.mp hx
  unfold specEntryCost
  cases ht : tariffs e.1 with
  | none => exact le_refl _
  | some rate => exact mul_nonneg (hr e.1 rate ht) (ha e he)

theorem nonNeg_new : NonNegState HousingOffice.new :=
  { rates := by
      intro s rate h
      cases s <;> simp [HousingOffice.new] at h <;> simp [← h]
    amounts := by intro r hr; simp [HousingOffice.new] at hr }

theorem nonNeg_step (o : HousingOffice ℚ) (op : Op ℚ) (h : NonNegState o) (hop : op.NonNeg) :
    NonNegState (step o op) := by
  cases op with
  | addResident name address =>
    refine ⟨h.rates, ?_⟩
    intro r hr
    simp only [step, HousingOffice.addResident, List.mem_append, List.mem_singleton] at hr
    rcases hr with hr | rfl
    · exact h.amounts r hr
    · intro a ha; simp [Resident.new] at ha
  | setTariff service rate =>
    refine ⟨?_, h.amounts⟩
    intro s x hx
    simp only [step, HousingOffice.setTariff] at hx
    by_cases hs : s = service
    · rw [if_pos hs] at hx
      have : rate = x := Option.some.inj hx
      rw [← this]; exact hop
    · rw [if_neg hs] at hx
      exact h.rates s x hx
  | addServiceConsumption residentId service amount =>
    rcases addServiceConsumption_cases o residentId service amount with
      ⟨_, heq⟩ | ⟨pre, r, post, hsplit, _, _, heq⟩
    · simp only [step, heq]; exact h
    · simp only [step, heq]
      refine ⟨h.rates, ?_⟩
      intro x hx a ha
      have ham := h.amounts
      rw [hsplit] at ham
      simp only [List.mem_append, List.mem_cons] at hx
      rcases hx with hx | rfl | hx
      · exact ham x (by simp [hx]) a ha
      · simp only [Resident.withEntry, List.mem_append, List.mem_singleton] at ha
        rcases ha with ha | rfl
        · exact ham r (by simp) a ha
        · exact hop
      · exact ham x (by simp [hx]) a ha

theorem nonNeg_runFrom (ops : List (Op ℚ)) : ∀ (o : HousingOffice ℚ), NonNegState o →
    (∀ op ∈ ops, op.NonNeg) → NonNegState (runFrom o ops) := by
  induction ops with
  | nil => intro o h _; exact h
  | cons op ops ih =>
    intro o h hops
    exact ih (step o op) (nonNeg_step o op h (hops op (List.mem_cons_self _ _)))
      (fun x hx => hops x (List.mem_cons_of_mem _ hx))

theorem calculateTotalCost_nonneg (ops : List (Op ℚ)) (hnn : ∀ op ∈ ops, op.NonNeg)
    (r : Resident ℚ) (hr : r ∈ (run ops).residents) :
    ∃ total, r.calculateTotalCost (run ops).tariffs = some total ∧ 0 ≤ total := by
  have hst := nonNeg_runFrom ops _ nonNeg_new hnn
  refine ⟨_, calculateTotalCost_eq_spec r _ ((inv_run ops).aligned r hr), ?_⟩
  apply specTotalCost_nonneg _ _ hst.rates
  intro e he
  exact hst.amounts r hr e.2 (List.of_mem_zip he).2

/-! ## Revenue against recomputed costs -/

theorem revenueMatchesCosts_iff (o : HousingOffice ℚ) (hal : ∀ r ∈ o.residents, r.Aligned) :
    RevenueMatchesCosts o ↔ Balanced o := by
  have hmap : o.residents.map (fun r => r.calculateTotalCost o.tariffs)
      = (o.residents.map (fun r => specTotalCost o.tariffs r.entries)).map some := by
    rw [List.map_map]
    apply List.map_congr_left
    intro r hr
    exact calculateTotalCost_eq_spec r _ (hal r hr)
  constructor
  · rintro ⟨costs, hcosts, hsum⟩
    rw [hmap] at hcosts
    have : o.residents.map (fun r => specTotalCost o.tariffs r.entries) = costs :=
      List.map_injective_iff.mpr (Option.some_injective ℚ) hcosts
    rw [Balanced, this]
    exact hsum
  · intro h
    exact ⟨_, hmap, h⟩

theorem specTotalCost_append (tariffs : Tariffs ℚ) (es fs : List (Service × ℚ)) :
    specTotalCost tariffs (es ++ fs) = specTotalCost tariffs es + specTotalCost tariffs fs := by
  simp [specTotalCost]

theorem specTotalCost_singleton (tariffs : Tariffs ℚ) (service : Service) (amount : ℚ) :
    specTotalCost tariffs [(service, amount)]
      = match tariffs service with
        | some rate => rate * amount
        | none => 0 := by
  simp [specTotalCost, specEntryCost]

theorem entries_withEntry (r : Resident ℚ) (service : Service) (amount : ℚ) (h : r.Aligned) :
    (r.withEntry service amount).entries = r.entries ++ [(service, amount)] := by
  simp only [Resident.entries, Resident.withEntry]
  rw [List.zip_append h]
  rfl

theorem balanced_addResident (o : HousingOffice ℚ) (name address : String) (h : Balanced o) :
    Balanced (o.addResident name address).1 := by
  simp only [Balanced, HousingOffice.addResident, List.map_append, List.sum_append,
    List.map_cons, List.map_nil, List.sum_cons, List.sum_nil]
  rw [← h]
  simp [Resident.entries, Resident.new, specTotalCost]

theorem balanced_addServiceConsumption (o : HousingOffice ℚ) (residentId : Int)
    (service : Service) (amount : ℚ) (hal : ∀ r ∈ o.residents, r.Aligned) (h : Balanced o) :
    Balanced (o.addServiceConsumption residentId service amount).1 := by
  rcases addServiceConsumption_cases o residentId service amount with
    ⟨_, heq⟩ | ⟨pre, r, post, hsplit, _, _, heq⟩
  · rw [heq]; exact h
  · rw [heq]
    have hr : r.Aligned := hal r (by simp [hsplit])
    simp only [Balanced, hsplit, List.map_append, List.map_cons, List.sum_append,
      List.sum_cons] at h ⊢
    rw [entries_withEntry r service amount hr, specTotalCost_append,
      specTotalCost_singleton]
    cases ht : o.tariffs service with
    | none => simp only []; rw [h]; ring
    | some rate => simp only []; rw [h]; ring

theorem balanced_setTariff (o : HousingOffice ℚ) (service : Service) (rate : ℚ)
    (hempty : ∀ r ∈ o.residents, r.services = []) (h : Balanced o) :
    Balanced (o.setTariff service rate).1 := by
  have hzero : ∀ (tariffs : Tariffs ℚ),
      (o.residents.map (fun r => specTotalCost tariffs r.entries)).sum = 0 := by
    intro tariffs
    apply List.sum_eq_zero
    intro x hx
    obtain ⟨r, hr, rfl⟩ := List.mem_map.mp hx
    simp [Resident.entries, hempty r hr, specTotalCost]
  simp only [Balanced, HousingOffice.setTariff] at h ⊢
  rw [hzero] at h ⊢
  exact h

theorem balanced_runFrom (ops : List (Op ℚ)) :
    ∀ (o : HousingOffice ℚ) (recorded : Bool), Inv o → Balanced o →
      (recorded = false → ∀ r ∈ o.residents, r.services = []) →
      noTariffChangeAfterConsumption o recorded ops = true →
      Balanced (runFrom o ops) := by
  induction ops with
  | nil => intro o _ _ h _ _; exact h
  | cons op ops ih =>
    intro o recorded hinv hbal hempty hok
    have hinv' := inv_step o op hinv
    cases op with
    | addResident name address =>
      simp only [noTariffChangeAfterConsumption] at hok
      refine ih _ recorded hinv' (balanced_addResident o name address hbal) ?_ hok
      intro hrec r hr
      simp only [step, HousingOffice.addResident, List.mem_append, List.mem_singleton] at hr
      rcases hr with hr | rfl
      · exact hempty hrec r hr
      · rfl
    | setTariff service rate =>
      simp only [noTariffChangeAfterConsumption, Bool.and_eq_true, Bool.not_eq_true'] at hok
      exact ih _ recorded hinv' (balanced_setTariff o service rate (hempty hok.1) hbal)
        hempty hok.2
    | addServiceConsumption residentId service amount =>
      simp only [noTariffChangeAfterConsumption] at hok
      refine ih _ _ hinv'
        (balanced_addServiceConsumption o residentId service amount hinv.aligned hbal) ?_ hok
      intro hrec
      simp only [Bool.or_eq_false_iff, decide_eq_false_iff_not] at hrec
      rcases addServiceConsumption_cases o residentId service amount with
        ⟨_, heq⟩ | ⟨pre, r, post, hsplit, _, _, heq⟩
      · simp only [step, heq]
        exact hempty hrec.1
      · exact absurd (by rw [heq]) hrec.2

theorem balanced_new : Balanced HousingOffice.new := by
  simp [Balanced, HousingOffice.new]

/-! ## Claims -/

set_option maxRecDepth 10000

/-- C1 (amended): for every sequence of registry operations from the fresh
registry that leaves at most `2^31 - 1` residents, the stored ids are
`1, 2, ..., n` in list order, hence strictly increasing and pairwise distinct;
`addResident` assigns `1` on the empty registry and appends the new resident
with the id it reports; and while fewer than `2^31 - 1` residents are stored
the id it assigns is (maximum existing id) + 1. -/
theorem ids_sequential_within_int_range {D : Type} [Zero D] [Add D] [Mul D]
    (ops : List (Op D)) (h : (run ops).residents.length ≤ 2147483647) :
    (run ops).ids
        = (List.range (run ops).residents.length).map (fun (k : Nat) => (k : Int) + 1) ∧
      (run ops).ids.Pairwise (· < ·) ∧
      (run ops).ids.Nodup ∧
      ((run ops).residents = [] → (run ops).newId = 1) ∧
      (∀ name address,
        ((run ops).addResident name address).1.ids = (run ops).ids ++ [(run ops).newId] ∧
        ((run ops).addResident name address).2 = .residentAdded (run ops).newId) ∧
      ((run ops).residents.length < 2147483647 →
        ∀ m, m ∈ (run ops).ids → (∀ x ∈ (run ops).ids, x ≤ m) →
          (run ops).newId = m + 1) := by
  have hids := ids_run_of_le ops h
  have hpw : (run ops).ids.Pairwise (· < ·) := by
    rw [hids, List.pairwise_map]
    exact (List.pairwise_lt_range _).imp (fun hab => by omega)
  refine ⟨hids, hpw, ?_, ?_, ?_, ?_⟩
  · exact hpw.imp (fun hab => ne_of_lt hab)
  · intro hnil
    simp [HousingOffice.newId, hnil]
  · intro name address
    exact ⟨by simp [HousingOffice.addResident, HousingOffice.ids, Resident.new], rfl⟩
  · intro hlt m hm hmax
    rw [newId_of_inv _ (inv_run ops)]
    rw [hids] at hm hmax
    obtain ⟨k, hk, rfl⟩ := List.mem_map.mp hm
    have hk' : k < (run ops).residents.length := List.mem_range.mp hk
    have hlast := hmax ((((run ops).residents.length - 1 : Nat) : Int) + 1)
      (List.mem_map.mpr ⟨(run ops).residents.length - 1, List.mem_range.mpr (by omega), rfl⟩)
    rw [wrapInt_of_small] <;> omega

/-- C1, witness: two residents added around a tariff change and a consumption
record get the ids `1, 2`. -/
theorem ids_sequential_within_int_range_witness :
    (run ([.addResident "Ivanov I." "Lenina 1", .setTariff .GAS 3,
          .addServiceConsumption 1 .GAS 2, .addResident "Ivanova O." "Lenina 2"] :
        List (Op ℚ))).ids
      = [1, 2] := by
  have h := (ids_sequential_within_int_range
    ([.addResident "Ivanov I." "Lenina 1", .setTariff .GAS 3,
     .addServiceConsumption 1 .GAS 2, .addResident "Ivanova O." "Lenina 2"] : List (Op ℚ))
    (by decide)).1
  rw [h]
  decide

/-- C1 as stated fails: after `2^31` calls of `addResident` the last id is
`-2^31`, below its predecessor `2^31 - 1`, so the stored ids are not strictly
increasing. -/
theorem ids_not_increasing_after_int_overflow :
    ¬ (run (List.replicate 2147483648 (Op.addResident "A" "B" : Op ℚ))).ids.Pairwise
        (· < ·) :=
  ids_not_increasing_of_many "A" "B" 2147483648 (le_refl _)

/-- C2: in every registry state, when `residentId` is the id of no stored
resident, `addServiceConsumption` reports "resident not found" and returns the
registry unchanged: same residents with the same consumption lists, same
tariff table, same cumulative revenue. -/
theorem addServiceConsumption_unknown_id {D : Type} [Add D] [Mul D] (o : HousingOffice D)
    (residentId : Int) (service : Service) (amount : D)
    (h : ∀ r ∈ o.residents, r.id ≠ residentId) :
    o.addServiceConsumption residentId service amount = (o, .residentNotFound residentId) := by
  simp only [HousingOffice.addServiceConsumption,
    addServiceConsumptionLoop_none residentId service amount o.residents h]

/-- C2, witness: id `7` in a registry whose only resident has id `1`. -/
theorem addServiceConsumption_unknown_id_witness :
    (∀ r ∈ (run ([.addResident "Smirnov A." "Lenina 5"] : List (Op ℚ))).residents, r.id ≠ 7) ∧
    (run ([.addResident "Smirnov A." "Lenina 5"] : List (Op ℚ))).addServiceConsumption 7 .WATER 3
      = (run [.addResident "Smirnov A." "Lenina 5"], .residentNotFound 7) :=
  ⟨by decide, addServiceConsumption_unknown_id _ 7 .WATER 3 (by decide)⟩

/-- C3 (amended): for a resident whose service and amount sequences have the
same length and any tariff mapping, `calculateTotalCost` returns (without an
out-of-range read) the sum of `tariffs[service] * amount` over the consumption
entries, accumulated from `0.0` in entry order with the `+` and `*` of `double`
(each product and each partial sum is rounded), an entry whose service is
absent adding nothing; it returns `0` for a resident with no entries; and in
exact arithmetic the result is the exact sum, an absent service contributing `0`. -/
theorem calculateTotalCost_eq_running_sum :
    (∀ (D : Type) [Zero D] [Add D] [Mul D] (r : Resident D) (tariffs : Tariffs D),
      (r.services.length = r.consumption.length →
        r.calculateTotalCost tariffs = some (accumulatedCost tariffs r.entries)) ∧
      (r.services = [] → r.calculateTotalCost tariffs = some 0)) ∧
    (∀ (r : Resident ℚ) (tariffs : Tariffs ℚ), r.services.length = r.consumption.length →
      r.calculateTotalCost tariffs = some (specTotalCost tariffs r.entries)) := by
  refine ⟨?_, fun r tariffs h => calculateTotalCost_eq_spec r tariffs h⟩
  intro D _ _ _ r tariffs
  refine ⟨fun h => calculateTotalCost_eq_accumulated r tariffs h, ?_⟩
  intro hnil
  simp [Resident.calculateTotalCost, hnil, calculateTotalCostLoop]

/-- C3, witness: in `double` arithmetic 10 units of electricity at rate 5 and 2
units of water with no water tariff cost 50. -/
theorem calculateTotalCost_eq_running_sum_witness :
    (Resident.mk 1 "Smirnov A." "Lenina 5" [.ELECTRICITY, .WATER]
        [Binary64.ofNat 10, Binary64.ofNat 2]).calculateTotalCost
      (fun s => if s = .ELECTRICITY then some (Binary64.ofNat 5) else none)
      = some (Binary64.ofNat 50) := by
  have h := (calculateTotalCost_eq_running_sum.1 Binary64
    (Resident.mk 1 "Smirnov A." "Lenina 5" [.ELECTRICITY, .WATER]
      [Binary64.ofNat 10, Binary64.ofNat 2])
    (fun s => if s = .ELECTRICITY then some (Binary64.ofNat 5) else none)).1 rfl
  rw [h]
  decide

/-- C3 as stated fails: with the entries `1e16` and `1` of one service at rate
`1`, `calculateTotalCost` returns the `double` `1e16`, while the sum of
`tariffs[service] * amount` over the entries is `10000000000000001`. -/
theorem calculateTotalCost_rounds_the_sum :
    (Resident.mk 1 "Smirnov A." "Lenina 5" [.ELECTRICITY, .ELECTRICITY]
        [Binary64.ofNat 10000000000000000, Binary64.ofNat 1]).calculateTotalCost
      (fun _ => some (Binary64.ofNat 1)) = some (Binary64.ofNat 10000000000000000) ∧
    (Binary64.ofNat 10000000000000000).toRat = 10000000000000000 ∧
    exactTotalCost (fun _ => some (Binary64.ofNat 1))
      (Resident.mk 1 "Smirnov A." "Lenina 5" [.ELECTRICITY, .ELECTRICITY]
        [Binary64.ofNat 10000000000000000, Binary64.ofNat 1]).entries
      = 10000000000000001 := by
  have h16 : Binary64.ofNat 10000000000000000 = .finite false 5000000000000000 1 := by
    decide
  have h1 : Binary64.ofNat 1 = .finite false 4503599627370496 (-52) := by decide
  refine ⟨by decide, ?_, ?_⟩
  · rw [h16]
    norm_num [Binary64.toRat, signedInt]
  · rw [h16, h1]
    norm_num [exactTotalCost, specTotalCost, specEntryCost, Resident.entries,
      Binary64.toRat, signedInt]

/-- C4 (amended): in every state reachable from the fresh registry in which
some resident has id `residentId`, `addServiceConsumption residentId service
amount` reports success, appends the one entry `(service, amount)` at the end
of the service and amount sequences of the resident with that id (the first one
in list order), sets the cumulative revenue to `totalRevenue + rate * amount`
computed with the `+` and `*` of `double` at the current rate of the service
(in exact arithmetic: increases it by exactly that product), and leaves every
other resident, the resident count and the tariff table unchanged. -/
theorem addServiceConsumption_known_id {D : Type} [Zero D] [Add D] [Mul D]
    (ops : List (Op D)) (residentId : Int) (service : Service) (amount : D)
    (h : ∃ r ∈ (run ops).residents, r.id = residentId) :
    ∃ pre r post rate,
      (run ops).residents = pre ++ r :: post ∧ r.id = residentId ∧
      (∀ x ∈ pre, x.id ≠ residentId) ∧
      (run ops).tariffs service = some rate ∧
      (run ops).addServiceConsumption residentId service amount =
        ({ residents :=
             pre ++ { r with services := r.services ++ [service],
                             consumption := r.consumption ++ [amount] } :: post
           tariffs := (run ops).tariffs
           totalRevenue := (run ops).totalRevenue + rate * amount },
         .consumptionAdded) ∧
      ((run ops).addServiceConsumption residentId service amount).1.residents.length
        = (run ops).residents.length := by
  rcases addServiceConsumption_cases (run ops) residentId service amount with
    ⟨hnone, _⟩ | ⟨pre, r, post, hsplit, hid, hpre, heq⟩
  · obtain ⟨r, hr, hrid⟩ := h
    exact absurd hrid (hnone r hr)
  · obtain ⟨rate, hrate⟩ := (inv_run ops).tariffs service
    refine ⟨pre, r, post, rate, hsplit, hid, hpre, hrate, ?_, ?_⟩
    · rw [heq, hrate]; rfl
    · rw [heq, hsplit]; simp

/-- C4, witness: after adding one resident and setting the gas rate to 3,
recording 2 units of gas for id 1 yields one entry and revenue `0 + 3 * 2`. -/
theorem addServiceConsumption_known_id_witness :
    ∃ pre r post rate,
      (run ([.addResident "Smirnov A." "Lenina 5", .setTariff .GAS 3] : List (Op ℚ))).residents
        = pre ++ r :: post ∧ r.id = 1 ∧
      (∀ x ∈ pre, x.id ≠ 1) ∧
      (run ([.addResident "Smirnov A." "Lenina 5",
             .setTariff .GAS 3] : List (Op ℚ))).tariffs .GAS
        = some rate ∧
      (run ([.addResident "Smirnov A." "Lenina 5",
             .setTariff .GAS 3] : List (Op ℚ))).addServiceConsumption 1 .GAS 2 =
        ({ residents :=
             pre ++ { r with services := r.services ++ [.GAS],
                             consumption := r.consumption ++ [2] } :: post
           tariffs := (run [.addResident "Smirnov A." "Lenina 5", .setTariff .GAS 3]).tariffs
           totalRevenue :=
             (run [.addResident "Smirnov A." "Lenina 5", .setTariff .GAS 3]).totalRevenue
               + rate * 2 },
         .consumptionAdded) ∧
      ((run ([.addResident "Smirnov A." "Lenina 5",
              .setTariff .GAS 3] : List (Op ℚ))).addServiceConsumption
          1 .GAS 2).1.residents.length
        = (run ([.addResident "Smirnov A." "Lenina 5",
                 .setTariff .GAS 3] : List (Op ℚ))).residents.length :=
  addServiceConsumption_known_id
    ([.addResident "Smirnov A." "Lenina 5", .setTariff .GAS 3] : List (Op ℚ))
    1 .GAS 2 ⟨Resident.new 1 "Smirnov A." "Lenina 5", by decide, rfl⟩

/-- C4 as stated fails: with Electricity at rate `1` and revenue `1e16` accrued
by resident 1, recording one more unit (`tariff * amount = 1`) succeeds and
leaves the cumulative revenue at `1e16`. -/
theorem revenue_not_increased_by_small_amount :
    (run [.addResident "Smirnov A." "Lenina 5", .setTariff .ELECTRICITY (Binary64.ofNat 1),
          .addServiceConsumption 1 .ELECTRICITY (Binary64.ofNat 10000000000000000)]).totalRevenue
      = Binary64.ofNat 10000000000000000 ∧
    (run [.addResident "Smirnov A." "Lenina 5", .setTariff .ELECTRICITY (Binary64.ofNat 1),
          .addServiceConsumption 1 .ELECTRICITY
            (Binary64.ofNat 10000000000000000)]).tariffs .ELECTRICITY
      = some (Binary64.ofNat 1) ∧
    (Binary64.ofNat 1 * Binary64.ofNat 1).toRat = 1 ∧
    ((run [.addResident "Smirnov A." "Lenina 5", .setTariff .ELECTRICITY (Binary64.ofNat 1),
           .addServiceConsumption 1 .ELECTRICITY
             (Binary64.ofNat 10000000000000000)]).addServiceConsumption
        1 .ELECTRICITY (Binary64.ofNat 1)).2 = .consumptionAdded ∧
    ((run [.addResident "Smirnov A." "Lenina 5", .setTariff .ELECTRICITY (Binary64.ofNat 1),
           .addServiceConsumption 1 .ELECTRICITY
             (Binary64.ofNat 10000000000000000)]).addServiceConsumption
        1 .ELECTRICITY (Binary64.ofNat 1)).1.totalRevenue
      = Binary64.ofNat 10000000000000000 := by
  have h1 : Binary64.ofNat 1 * Binary64.ofNat 1 = .finite false 4503599627370496 (-52) := by
    decide
  refine ⟨by decide, by decide, ?_, by decide, by decide⟩
  rw [h1]
  norm_num [Binary64.toRat, signedInt]

/-- C5: in every state reachable from the fresh registry, after
`setTariff s rate` the rate of `s` is `rate`, every other service keeps its
rate, the residents and the cumulative revenue are unchanged, and the total
cost of each resident is recomputed from its entries with the updated table.
Scenario: resident "Smirnov A." gets id 1; with Electricity at 5, recording 10
units gives revenue 50 and total cost 50; setting Electricity to 7 gives total
cost 70 while revenue stays 50. -/
theorem setTariff_frame_and_scenario :
    (∀ (D : Type) [Zero D] [Add D] [Mul D] (ops : List (Op D)) (s : Service) (rate : D),
      ((run ops).setTariff s rate).1.tariffs s = some rate ∧
      (∀ s', s' ≠ s → ((run ops).setTariff s rate).1.tariffs s' = (run ops).tariffs s') ∧
      ((run ops).setTariff s rate).1.residents = (run ops).residents ∧
      ((run ops).setTariff s rate).1.totalRevenue = (run ops).totalRevenue ∧
      (∀ r ∈ (run ops).residents,
        r.calculateTotalCost ((run ops).setTariff s rate).1.tariffs
          = some (accumulatedCost
              (fun s' => if s' = s then some rate else (run ops).tariffs s') r.entries))) ∧
    ((HousingOffice.new : HousingOffice ℚ).addResident "Smirnov A." "Lenina 5").2
      = .residentAdded 1 ∧
    (run ([.addResident "Smirnov A." "Lenina 5", .setTariff .ELECTRICITY 5,
          .addServiceConsumption 1 .ELECTRICITY 10] : List (Op ℚ))).totalRevenue = 50 ∧
    (run ([.addResident "Smirnov A." "Lenina 5", .setTariff .ELECTRICITY 5,
          .addServiceConsumption 1 .ELECTRICITY 10] :
        List (Op ℚ))).calculateTotalForResident "Smirnov A."
      = some 50 ∧
    (run ([.addResident "Smirnov A." "Lenina 5", .setTariff .ELECTRICITY 5,
          .addServiceConsumption 1 .ELECTRICITY 10,
          .setTariff .ELECTRICITY 7] : List (Op ℚ))).calculateTotalForResident "Smirnov A."
      = some 70 ∧
    (run ([.addResident "Smirnov A." "Lenina 5", .setTariff .ELECTRICITY 5,
          .addServiceConsumption 1 .ELECTRICITY 10,
          .setTariff .ELECTRICITY 7] : List (Op ℚ))).totalRevenue = 50 := by
  refine ⟨?_, rfl, ?_, ?_, ?_, ?_⟩
  · intro D _ _ _ ops s rate
    refine ⟨by simp [HousingOffice.setTariff], ?_, rfl, rfl, ?_⟩
    · intro s' hs'
      simp [HousingOffice.setTariff, hs']
    · intro r hr
      exact calculateTotalCost_eq_accumulated r _ ((inv_run ops).aligned r hr)
  · simp +decide [run, runFrom, step, HousingOffice.addResident, HousingOffice.setTariff,
      HousingOffice.addServiceConsumption, addServiceConsumptionLoop, HousingOffice.new,
      HousingOffice.newId, Resident.new]
    norm_num
  · simp +decide [run, runFrom, step, HousingOffice.addResident, HousingOffice.setTariff,
      HousingOffice.addServiceConsumption, addServiceConsumptionLoop, HousingOffice.new,
      HousingOffice.newId, Resident.new, HousingOffice.calculateTotalForResident,
      calculateTotalForResidentLoop, Resident.calculateTotalCost, calculateTotalCostLoop]
    norm_num
  · simp +decide [run, runFrom, step, HousingOffice.addResident, HousingOffice.setTariff,
      HousingOffice.addServiceConsumption, addServiceConsumptionLoop, HousingOffice.new,
      HousingOffice.newId, Resident.new, HousingOffice.calculateTotalForResident,
      calculateTotalForResidentLoop, Resident.calculateTotalCost, calculateTotalCostLoop]
    norm_num
  · simp +decide [run, runFrom, step, HousingOffice.addResident, HousingOffice.setTariff,
      HousingOffice.addServiceConsumption, addServiceConsumptionLoop, HousingOffice.new,
      HousingOffice.newId, Resident.new]
    norm_num

/-- C6 (amended): in every state reachable from the fresh registry, if some
resident's name contains `sub` as a literal case-sensitive contiguous
substring, `calculateTotalForResident sub` returns the total cost under the
current tariffs of the first such resident in list order, ignoring later
matches; while at most `2^31 - 1` residents are stored that resident is also
the one with the lowest id among the matches.  "Ivanov Petrovich" is matched by
"anov" and "Petro" but not by "PETRO"; with "Ivanov I." (cost 6) stored before
"Ivanova O." (cost 10) the search "Ivanov" returns 6. -/
theorem name_search_returns_first_match :
    (∀ (D : Type) [Zero D] [Add D] [Mul D] [DoubleOrder D] (ops : List (Op D))
        (sub : String),
      (∃ r ∈ (run ops).residents, nameContains r.name sub) →
      ∃ (pre : List (Resident D)) (r : Resident D) (post : List (Resident D)),
        (run ops).residents = pre ++ r :: post ∧ nameContains r.name sub ∧
        (∀ x ∈ pre, ¬ nameContains x.name sub) ∧
        (run ops).calculateTotalForResident sub = r.calculateTotalCost (run ops).tariffs ∧
        (run ops).calculateTotalForResident sub
          = some (accumulatedCost (run ops).tariffs r.entries) ∧
        ((run ops).residents.length ≤ 2147483647 →
          ∀ x ∈ (run ops).residents, nameContains x.name sub → r.id ≤ x.id)) ∧
    strFind "Ivanov Petrovich" "anov" ≠ none ∧
    strFind "Ivanov Petrovich" "Petro" ≠ none ∧
    strFind "Ivanov Petrovich" "PETRO" = none ∧
    (run ([.addResident "Ivanov I." "Lenina 1", .addResident "Ivanova O." "Lenina 2",
          .setTariff .WATER 2, .addServiceConsumption 1 .WATER 3,
          .addServiceConsumption 2 .WATER 5] : List (Op ℚ))).calculateTotalForResident "Ivanov"
      = some 6 := by
  refine ⟨?_, by decide, by decide, by decide, ?_⟩
  · intro D _ _ _ _ ops sub h
    obtain ⟨pre, r, post, hsplit, hrc, hpre, hloop⟩ :=
      calculateTotalForResidentLoop_first (run ops).tariffs sub (run ops).residents h
    have hr : r ∈ (run ops).residents := by simp [hsplit]
    refine ⟨pre, r, post, hsplit, hrc, hpre, hloop, ?_, ?_⟩
    · rw [HousingOffice.calculateTotalForResident, hloop]
      exact calculateTotalCost_eq_accumulated r _ ((inv_run ops).aligned r hr)
    · intro hle
      exact firstMatchHasLowestId_of_le ops sub hle pre r post hsplit hrc hpre
  · simp +decide [run, runFrom, step, HousingOffice.addResident, HousingOffice.setTariff,
      HousingOffice.addServiceConsumption, addServiceConsumptionLoop, HousingOffice.new,
      HousingOffice.newId, Resident.new, HousingOffice.calculateTotalForResident,
      calculateTotalForResidentLoop, Resident.calculateTotalCost, calculateTotalCostLoop,
      wrapInt]
    norm_num

/-- C6, witness: in the registry holding "Ivanov I." and "Ivanova O." the
search "Ivanov" has a first match. -/
theorem name_search_returns_first_match_witness :
    ∃ pre r post,
      (run ([.addResident "Ivanov I." "Lenina 1",
             .addResident "Ivanova O." "Lenina 2"] : List (Op ℚ))).residents
        = pre ++ r :: post ∧ nameContains r.name "Ivanov" ∧
      (∀ x ∈ pre, ¬ nameContains x.name "Ivanov") ∧
      (run ([.addResident "Ivanov I." "Lenina 1",
            .addResident "Ivanova O." "Lenina 2"] : List (Op ℚ))).calculateTotalForResident
          "Ivanov"
        = r.calculateTotalCost
            (run [.addResident "Ivanov I." "Lenina 1",
                  .addResident "Ivanova O." "Lenina 2"]).tariffs ∧
      (run ([.addResident "Ivanov I." "Lenina 1",
            .addResident "Ivanova O." "Lenina 2"] : List (Op ℚ))).calculateTotalForResident
          "Ivanov"
        = some (accumulatedCost
            (run [.addResident "Ivanov I." "Lenina 1",
                  .addResident "Ivanova O." "Lenina 2"]).tariffs r.entries) ∧
      ((run ([.addResident "Ivanov I." "Lenina 1",
             .addResident "Ivanova O." "Lenina 2"] : List (Op ℚ))).residents.length
          ≤ 2147483647 →
        ∀ x ∈ (run ([.addResident "Ivanov I." "Lenina 1",
                    .addResident "Ivanova O." "Lenina 2"] : List (Op ℚ))).residents,
          nameContains x.name "Ivanov" → r.id ≤ x.id) :=
  name_search_returns_first_match.1 ℚ
    [.addResident "Ivanov I." "Lenina 1", .addResident "Ivanova O." "Lenina 2"] "Ivanov"
    ⟨Resident.new 1 "Ivanov I." "Lenina 1", by decide,
      (strFind_ne_none_iff _ _).mp (by decide)⟩

/-- C6 as stated fails: after `2^31` calls `addResident "A" "B"` the first
resident whose name contains "A" has id `1`, and a later one has the lower id
`-2^31`. -/
theorem first_match_not_lowest_id_after_int_overflow :
    ¬ FirstMatchHasLowestId
      (run (List.replicate 2147483648 (Op.addResident "A" "B" : Op ℚ))) "A" :=
  not_firstMatchHasLowestId_of_many "A" "B" 2147483648 (le_refl _)

/-- C7: in every state reached from the fresh registry by calls with
non-negative rates and amounts, `calculateTotalForResident sub` returns the
not-found value `-0.1` exactly when no resident's name contains `sub`, and
`case 4` of `main` prints "not found" exactly then; for a matching resident the
result is a cost `≥ 0`, which `main` prints as a total.  On the fresh registry
the search "X" is not found. -/
theorem name_search_not_found_iff (ops : List (Op ℚ)) (hnn : ∀ op ∈ ops, op.NonNeg)
    (sub : String) :
    ((run ops).calculateTotalForResident sub = some (-1 / 10)
        ↔ ∀ r ∈ (run ops).residents, ¬ nameContains r.name sub) ∧
      (mainCase4 (run ops) sub = some (.surnameNotFound sub)
        ↔ ∀ r ∈ (run ops).residents, ¬ nameContains r.name sub) ∧
      ((∃ r ∈ (run ops).residents, nameContains r.name sub) →
        ∃ total, (run ops).calculateTotalForResident sub = some total ∧ 0 ≤ total ∧
          mainCase4 (run ops) sub = some (.totalForSurname sub total)) ∧
      (HousingOffice.new : HousingOffice ℚ).calculateTotalForResident "X" = some (-1 / 10) ∧
      mainCase4 (HousingOffice.new : HousingOffice ℚ) "X" = some (.surnameNotFound "X") := by
  have hfound : (∃ r ∈ (run ops).residents, nameContains r.name sub) →
      ∃ total, (run ops).calculateTotalForResident sub = some total ∧ 0 ≤ total ∧
        mainCase4 (run ops) sub = some (.totalForSurname sub total) := by
    intro h
    obtain ⟨pre, r, post, hsplit, _, _, hloop⟩ :=
      calculateTotalForResidentLoop_first (run ops).tariffs sub (run ops).residents h
    obtain ⟨total, htotal, hpos⟩ :=
      calculateTotalCost_nonneg ops hnn r (by simp [hsplit])
    have hcalc : (run ops).calculateTotalForResident sub = some total := by
      rw [HousingOffice.calculateTotalForResident, hloop, htotal]
    refine ⟨total, hcalc, hpos, ?_⟩
    have hgt : total > -1 / 10 := by linarith
    simp [mainCase4, hcalc, gt_rat, negTenth_rat, hgt]
  have hnone : (∀ r ∈ (run ops).residents, ¬ nameContains r.name sub) →
      (run ops).calculateTotalForResident sub = some (-1 / 10) :=
    calculateTotalForResidentLoop_none (run ops).tariffs sub (run ops).residents
  refine ⟨⟨?_, hnone⟩, ⟨?_, ?_⟩, hfound, rfl, ?_⟩
  · intro heq r hr hrc
    obtain ⟨total, hcalc, hpos, _⟩ := hfound ⟨r, hr, hrc⟩
    rw [hcalc] at heq
    have : total = -1 / 10 := Option.some.inj heq
    linarith
  · intro heq r hr hrc
    obtain ⟨total, _, _, hmain⟩ := hfound ⟨r, hr, hrc⟩
    rw [hmain] at heq
    simp at heq
  · intro h
    simp [mainCase4, hnone h, gt_rat, negTenth_rat]
  · simp [mainCase4, HousingOffice.calculateTotalForResident, calculateTotalForResidentLoop,
      HousingOffice.new, gt_rat, negTenth_rat]

/-- C7, witness: a resident with no consumption is found with total `0`, which
is not the not-found value. -/
theorem name_search_not_found_iff_witness :
    ∃ total,
      (run ([.addResident "Smirnov A." "Lenina 5",
             .setTariff .GAS 3] : List (Op ℚ))).calculateTotalForResident
          "Smirnov" = some total ∧ 0 ≤ total ∧
      mainCase4 (run ([.addResident "Smirnov A." "Lenina 5",
                       .setTariff .GAS 3] : List (Op ℚ))) "Smirnov"
        = some (.totalForSurname "Smirnov" total) :=
  (name_search_not_found_iff [.addResident "Smirnov A." "Lenina 5", .setTariff .GAS 3]
    (by
      intro op hop
      simp only [List.mem_cons, List.mem_singleton, List.not_mem_nil, or_false] at hop
      rcases hop with rfl | rfl
      · trivial
      · show (0 : ℚ) ≤ 3
        norm_num)
    "Smirnov").2.2.1
    ⟨Resident.new 1 "Smirnov A." "Lenina 5", by decide,
      (strFind_ne_none_iff _ _).mp (by decide)⟩

/-- C9: in every state reachable from the fresh registry every resident's
service and amount sequences have the same length, every index below
`services.size()` is a valid index of `consumption`, and `calculateTotalCost`
under the current tariffs returns a value. -/
theorem vectors_aligned_in_reachable_states {D : Type} [Zero D] [Add D] [Mul D]
    (ops : List (Op D)) :
    ∀ r ∈ (run ops).residents,
      r.services.length = r.consumption.length ∧
      (∀ i, i < r.services.length → ∃ c, r.consumption[i]? = some c) ∧
      ∃ total, r.calculateTotalCost (run ops).tariffs = some total := by
  intro r hr
  have hal : r.Aligned := (inv_run ops).aligned r hr
  refine ⟨hal, ?_, ⟨_, calculateTotalCost_eq_accumulated r _ hal⟩⟩
  intro i hi
  have hi' : i < r.consumption.length := by
    have : r.services.length = r.consumption.length := hal
    omega
  exact ⟨r.consumption[i], List.getElem?_eq_getElem hi'⟩

/-- C9, witness: after one record for resident 1 both of its vectors have
length 1 and its total cost is computed. -/
theorem vectors_aligned_in_reachable_states_witness :
    (Resident.mk 1 "Smirnov A." "Lenina 5" [.GAS] [2] : Resident ℚ)
        ∈ (run [.addResident "Smirnov A." "Lenina 5", .setTariff .GAS 3,
                .addServiceConsumption 1 .GAS 2]).residents ∧
      ((Resident.mk 1 "Smirnov A." "Lenina 5" [.GAS] [2] : Resident ℚ).services.length
          = (Resident.mk 1 "Smirnov A." "Lenina 5" [.GAS] [2] : Resident ℚ).consumption.length ∧
        (∀ i, i < (Resident.mk 1 "Smirnov A." "Lenina 5" [.GAS] [2] :
              Resident ℚ).services.length →
          ∃ c, (Resident.mk 1 "Smirnov A." "Lenina 5" [.GAS] [2] :
              Resident ℚ).consumption[i]? = some c) ∧
        ∃ total, (Resident.mk 1 "Smirnov A." "Lenina 5" [.GAS] [2] :
            Resident ℚ).calculateTotalCost
          (run [.addResident "Smirnov A." "Lenina 5", .setTariff .GAS 3,
                .addServiceConsumption 1 .GAS 2]).tariffs = some total) :=
  ⟨by decide,
   vectors_aligned_in_reachable_states
     [.addResident "Smirnov A." "Lenina 5", .setTariff .GAS 3, .addServiceConsumption 1 .GAS 2]
     _ (by decide)⟩

/-- C8: the fresh registry has no residents, revenue `0` and all five services
at rate `0`; in every state reachable from it every service still has a tariff
entry, and the stored residents (id, name, address) of a state are an initial
segment of those of any later state, so the resident count never decreases. -/
theorem fresh_registry_and_no_removal {D : Type} [Zero D] [Add D] [Mul D] :
    (HousingOffice.new : HousingOffice D).residents = [] ∧
      (HousingOffice.new : HousingOffice D).totalRevenue = 0 ∧
      (∀ s, (HousingOffice.new : HousingOffice D).tariffs s = some 0) ∧
      (∀ s : Service, s = .ELECTRICITY ∨ s = .WATER ∨ s = .GAS ∨ s = .HEATING ∨
        s = .MAINTENANCE) ∧
      ∀ ops : List (Op D),
        (∀ s, ∃ rate, (run ops).tariffs s = some rate) ∧
        ∀ more : List (Op D),
          (run ops).residents.map Resident.identity
              <+: (run (ops ++ more)).residents.map Resident.identity ∧
            (run ops).residents.length ≤ (run (ops ++ more)).residents.length := by
  refine ⟨rfl, rfl, ?_, ?_, ?_⟩
  · intro s; cases s <;> rfl
  · intro s; cases s <;> simp
  · intro ops
    refine ⟨(inv_run ops).tariffs, ?_⟩
    intro more
    have hpre := identity_prefix_runFrom more (run ops)
    rw [← run_append] at hpre
    refine ⟨hpre, ?_⟩
    have := hpre.length_le
    simpa using this

/-- C10: for every sequence of registry operations from the fresh registry in
which no `setTariff` follows the first successful `addServiceConsumption`,
cumulative revenue equals, in exact arithmetic, the sum over all residents of
`calculateTotalCost` under the current tariffs; in any reachable state where
the two agree they still agree after `addResident` and after
`addServiceConsumption`; and a `setTariff` can make them differ (revenue 50
against recomputed cost 70). -/
theorem revenue_matches_costs_while_tariffs_fixed :
    (∀ ops : List (Op ℚ), noTariffChangeAfterConsumption HousingOffice.new false ops = true →
      RevenueMatchesCosts (run ops)) ∧
    (∀ (ops : List (Op ℚ)) (op : Op ℚ), RevenueMatchesCosts (run ops) →
      (∀ service rate, op ≠ .setTariff service rate) →
      RevenueMatchesCosts (step (run ops) op)) ∧
    (RevenueMatchesCosts
        (run [.addResident "Smirnov A." "Lenina 5", .setTariff .ELECTRICITY 5,
              .addServiceConsumption 1 .ELECTRICITY 10]) ∧
      ¬ RevenueMatchesCosts
        (step (run [.addResident "Smirnov A." "Lenina 5", .setTariff .ELECTRICITY 5,
                    .addServiceConsumption 1 .ELECTRICITY 10])
          (.setTariff .ELECTRICITY 7))) := by
  have hfirst : ∀ ops : List (Op ℚ),
      noTariffChangeAfterConsumption HousingOffice.new false ops = true →
      RevenueMatchesCosts (run ops) := by
    intro ops hok
    rw [revenueMatchesCosts_iff _ (inv_run ops).aligned]
    exact balanced_runFrom ops _ false inv_new balanced_new
      (by intro _ r hr; simp [HousingOffice.new] at hr) hok
  refine ⟨hfirst, ?_, hfirst _ (by decide), ?_⟩
  · intro ops op h hop
    rw [revenueMatchesCosts_iff _ (inv_run ops).aligned] at h
    rw [revenueMatchesCosts_iff _ (inv_step _ op (inv_run ops)).aligned]
    cases op with
    | addResident name address => exact balanced_addResident _ name address h
    | setTariff service rate => exact absurd rfl (hop service rate)
    | addServiceConsumption residentId service amount =>
      exact balanced_addServiceConsumption _ residentId service amount (inv_run ops).aligned h
  · rw [revenueMatchesCosts_iff _ (inv_step _ _ (inv_run _)).aligned]
    simp +decide [Balanced, run, runFrom, step, HousingOffice.addResident,
      HousingOffice.setTariff, HousingOffice.addServiceConsumption, addServiceConsumptionLoop,
      HousingOffice.new, HousingOffice.newId, Resident.new, Resident.entries, specTotalCost,
      specEntryCost]

/-- C10, witness: tariffs set first, then residents and consumption in any
order; revenue `2 * 3 + 5 * 4 = 26` matches the recomputed costs. -/
theorem revenue_matches_costs_while_tariffs_fixed_witness :
    RevenueMatchesCosts
      (run [.setTariff .WATER 2, .addResident "Ivanov I." "Lenina 1", .setTariff .GAS 5,
            .addServiceConsumption 1 .WATER 3, .addResident "Ivanova O." "Lenina 2",
            .addServiceConsumption 2 .GAS 4, .addServiceConsumption 9 .GAS 1]) :=
  revenue_matches_costs_while_tariffs_fixed.1 _ (by decide)

end Laba2
